import Mathlib

/-!
# Verification of the ngta_ui concurrent test-execution engine

A shallow embedding, in Lean 4, of the parts of the `ngta_ui` test framework
that the specification's claims are about:

* `suite.py` — `TestSuite._run_tests` / `TestSuite.run_test` (sequential loop,
  prerequisite short-circuit, abort check, class/module setup-error caching),
  `TestCase.skip_test`;
* `consumer.py` — `QueueTestConsumer._consume` (queue loop, abort check);
* `events.py` — `EventObservable.notify` / `TestEventHandler.update`;
* `result.py` — `TestResult.update` (rerun merge), `TestResult.tc_records`,
  `TestResult.statistics`;
* `concurrent.py` — `MultiProcessQueueTestConsumer.generate_testsuite_record`
  and the result-queue drain (`add_tc_record`);
* `agent/executor.py` — `AmqpMultiProcessExecutor.run` supervisory loop;
* `__main__.py` — `_run_program` exit-code selection, with `constants.py`'s
  `ExitCode` values;
* `context.py` — `TestContextManager.current_context`.

Machine state that is irrelevant to the claims (timestamps, log paths,
event payloads) is elided; Python dictionaries are modelled as association
lists with the dictionary's overwrite-on-existing-key semantics; shared
mutable flags read by a loop are modelled either as threaded state (for
writes made by the loop itself) or as a monotone oracle indexed by the
observation instant (for writes made by another thread).
-/

/-- `TestCaseResultStatus` from `case.py` (an IntEnum with values 0..7). -/
inductive Status where
  | NOT_RUN
  | PASSED
  | WARNING
  | FAILED
  | SKIPPED
  | ERRONEOUS
  | REJECTED
  | CANCELED
deriving DecidableEq, Repr

/-!
## The sequential suite loop (`TestSuite._run_tests`) and the queue consumer
loop (`QueueTestConsumer._consume`)

A test item is a `TestCase` or a (possibly nested) `TestSuite`.  A case's
`body` abstracts the status that `TestCase.run()` leaves in `record.status`
when the case is actually executed; the loops under verification never look
inside `run()` beyond that status.
-/

/-- A test item handed to `TestSuite._run_tests`: a `TestCase` (with its
`is_prerequisite` flag and the status its `run()` would produce) or a nested
`TestSuite` with its ordered children. -/
inductive Test where
  | case (id : Nat) ( is_prerequisite : Bool) (body : Status)
  | suite (id : Nat) (tests : List Test)

/-- The result-record tree mirroring a `Test`: for a case we keep the final
`record.status`, the `is_prerequisite` flag stored on the record, and whether
the test body (`TestCase.run`) was ever invoked; for a suite, the child
records in order. -/
inductive RTest where
  | case (id : Nat) ( is_prerequisite : Bool) (status : Status) (body_invoked : Bool)
  | suite (id : Nat) (records : List RTest)

mutual
/-- The record attached to a test that was never started: every case record
keeps its construction-time default status `NOT_RUN` (`case.py`,
`TestCaseResultRecord.status`) and its body is not invoked. -/
def initRecord : Test → RTest
  | .case i p _ => .case i p .NOT_RUN false
  | .suite i ts => .suite i (initRecords ts)
def initRecords : List Test → List RTest
  | [] => []
  | t :: ts => initRecord t :: initRecords ts
end

mutual
/-- `skip_test` (`case.py` line 339 / `suite.py` line 259): a case is marked
`SKIPPED` without invoking `TestCase.run()`; a suite recursively skips every
sub-test. -/
def skipRecord : Test → RTest
  | .case i p _ => .case i p .SKIPPED false
  | .suite i ts => .suite i (skipRecords ts)
def skipRecords : List Test → List RTest
  | [] => []
  | t :: ts => skipRecord t :: skipRecords ts
end

mutual
/-- Decidable check that a record tree is recursively `SKIPPED` with no test
body ever invoked. -/
def allSkippedUnrun : RTest → Bool
  | .case _ _ st inv => st == .SKIPPED && !inv
  | .suite _ rs => allSkippedUnrunList rs
def allSkippedUnrunList : List RTest → Bool
  | [] => true
  | r :: rs => allSkippedUnrun r && allSkippedUnrunList rs
end

/-- The prerequisite short-circuit condition of `TestSuite._run_tests`
(`suite.py` lines 273-282): the test just run is a case
(`not is_testsuite(test)`), its `is_prerequisite` flag is set, and its record
status is `FAILED`, `SKIPPED` or `ERRONEOUS`. -/
def prereqCut : RTest → Bool
  | .case _ p st _ => p && (st == .FAILED || st == .SKIPPED || st == .ERRONEOUS)
  | .suite _ _ => false

mutual
/-- `TestSuite.run_test` (`suite.py` line 284) in the situation the ordering
claims are about (no class/module hooks are defined, so the fixture branches
are no-ops; the fixture-caching behaviour is verified separately below with
`runTestFix`): a sub-suite runs its own `_run_tests`; a case runs its body,
and if the resulting status is `FAILED` and `result.failfast` is set the
shared abort flag is raised (`result.abort()`).

State threading: `n` is the index of the next observation of the shared
`result.should_abort` flag, and `ab` is the part of that flag already set by
this runner itself (fail-fast); an abort requested by another thread is the
oracle `ext`, so the value read at observation `n` is `ab || ext n`. -/
def runTest (ext : Nat → Bool) (ff : Bool) : Nat → Bool → Test → Nat × Bool × RTest
  | n, ab, .case i p body =>
      (n, ab || (ff && (body == .FAILED)), .case i p body true)
  | n, ab, .suite i ts =>
      let r := runTests ext ff n ab ts
      (r.1, r.2.1, .suite i r.2.2)

/-- `TestSuite._run_tests` (`suite.py` lines 263-282): before each test the
loop reads `result.should_abort` and breaks if it is set (the remaining tests
keep their untouched records); otherwise the test is run via `run_test`; after
a case, the prerequisite short-circuit marks every following sibling
`SKIPPED` via `skip_test` and breaks.  The cooperative pause loop only delays
execution and is elided (modelled as never set). -/
def runTests (ext : Nat → Bool) (ff : Bool) : Nat → Bool → List Test → Nat × Bool × List RTest
  | n, ab, [] => (n, ab, [])
  | n, ab, t :: ts =>
      if ab || ext n then (n, ab, initRecords (t :: ts))
      else
        let r := runTest ext ff (n + 1) ab t
        if prereqCut r.2.2 then (r.1, r.2.1, r.2.2 :: skipRecords ts)
        else
          let r2 := runTests ext ff r.1 r.2.1 ts
          (r2.1, r2.2.1, r.2.2 :: r2.2.2)
end

/-- `QueueTestConsumer._consume` (`consumer.py` lines 63-85) on the sequence
of items the queue will deliver, with `auto_stop` set: each dequeued item is
materialized and run via `run_test`; after every item the loop reads
`result.should_abort` (the `finally` clause) and breaks if it is set, leaving
the remaining items undequeued (they produce no records in this consumer). -/
def consumeItems (ext : Nat → Bool) (ff : Bool) : Nat → Bool → List Test → Nat × Bool × List RTest
  | n, ab, [] => (n, ab, [])
  | n, ab, t :: ts =>
      let r := runTest ext ff n ab t
      if r.2.1 || ext r.1 then (r.1 + 1, r.2.1, [r.2.2])
      else
        let r2 := consumeItems ext ff (r.1 + 1) r.2.1 ts
        (r2.1, r2.2.1, r.2.2 :: r2.2.2)

/-! ### Structural facts about untouched / skipped records -/

theorem initRecords_eq_map (ts : List Test) : initRecords ts = ts.map initRecord := by
  induction ts with
  | nil => rfl
  | cons t ts ih => simp [initRecords, ih]

theorem skipRecords_eq_map (ts : List Test) : skipRecords ts = ts.map skipRecord := by
  induction ts with
  | nil => rfl
  | cons t ts ih => simp [skipRecords, ih]

theorem initRecord_not_invoked (t : Test) (a : Nat) (b : Bool) (c : Status) :
    ¬ initRecord t = .case a b c true := by
  cases t <;> simp [initRecord]

theorem skipRecord_not_invoked (t : Test) (a : Nat) (b : Bool) (c : Status) :
    ¬ skipRecord t = .case a b c true := by
  cases t <;> simp [skipRecord]

mutual
theorem allSkippedUnrun_skipRecord : ∀ t, allSkippedUnrun (skipRecord t) = true
  | .case _ _ _ => by simp [skipRecord, allSkippedUnrun]
  | .suite _ ts => by
      simpa [skipRecord, allSkippedUnrun] using allSkippedUnrunList_skipRecords ts
theorem allSkippedUnrunList_skipRecords : ∀ ts, allSkippedUnrunList (skipRecords ts) = true
  | [] => rfl
  | t :: ts => by
      simp [skipRecords, allSkippedUnrunList, allSkippedUnrun_skipRecord t,
            allSkippedUnrunList_skipRecords ts]
end

theorem runTests_length (ext : Nat → Bool) (ff : Bool) (n : Nat) (ab : Bool) (ts : List Test) :
    ((runTests ext ff n ab ts).2.2).length = ts.length := by
  induction ts generalizing n ab with
  | nil => simp [runTests]
  | cons t ts ih =>
      rw [runTests]
      by_cases hc : (ab || ext n) = true
      · simp [hc, initRecords_eq_map]
      · simp only [hc]
        by_cases hcut : prereqCut (runTest ext ff (n + 1) ab t).2.2 = true
        · simp [hcut, skipRecords_eq_map]
        · simp [hcut, ih]

/-- **C1** (prerequisite short-circuit, `suite.py` lines 263-282 and
`case.py` lines 339-347): in a single-threaded suite run, if the `i`-th
record produced by `TestSuite._run_tests` is a case record whose
`is_prerequisite` flag is set, whose body was actually invoked, and whose
status is `FAILED`, `SKIPPED` or `ERRONEOUS`, then every test after it in the
same suite ends as its `skip_test` record: recursively `SKIPPED` (including
nested sub-suites) with no test body ever invoked, and no later test is
started. -/
theorem prerequisite_short_circuit
    (ext : Nat → Bool) (ff : Bool) (n : Nat) (ab : Bool) (ts : List Test)
    (i j : Nat) (hij : i < j) (hj : j < ts.length)
    (ci : Nat) (st : Status)
    (hi : ((runTests ext ff n ab ts).2.2)[i]? = some (.case ci true st true))
    (hbad : (st == Status.FAILED || st == Status.SKIPPED || st == Status.ERRONEOUS) = true) :
    ∃ t, ts[j]? = some t ∧ ((runTests ext ff n ab ts).2.2)[j]? = some (skipRecord t)
       ∧ allSkippedUnrun (skipRecord t) = true := by
  induction ts generalizing n ab i j with
  | nil => exact absurd hj (by simp)
  | cons t ts ih =>
      rw [runTests] at hi ⊢
      by_cases hc : (ab || ext n) = true
      · rw [if_pos hc] at hi
        rw [initRecords_eq_map, List.getElem?_map] at hi
        match hgt : (t :: ts)[i]? with
        | none => rw [hgt] at hi; exact absurd hi (by simp)
        | some u =>
            rw [hgt] at hi
            simp only [Option.map_some', Option.some.injEq] at hi
            exact absurd hi (initRecord_not_invoked u ci true st)
      · rw [if_neg hc] at hi ⊢
        by_cases hcut : prereqCut (runTest ext ff (n + 1) ab t).2.2 = true
        · rw [if_pos hcut] at hi ⊢
          match i, j, hij with
          | 0, j + 1, _ =>
              simp only [List.getElem?_cons_succ]
              rw [skipRecords_eq_map, List.getElem?_map]
              have hjt : j < ts.length := by simpa using hj
              exact ⟨ts[j], by rw [List.getElem?_eq_getElem hjt],
                     by simp [List.getElem?_eq_getElem hjt],
                     allSkippedUnrun_skipRecord _⟩
          | i + 1, j + 1, _ =>
              simp only [List.getElem?_cons_succ] at hi
              rw [skipRecords_eq_map, List.getElem?_map] at hi
              match hgt : ts[i]? with
              | none => rw [hgt] at hi; exact absurd hi (by simp)
              | some u =>
                  rw [hgt] at hi
                  simp only [Option.map_some', Option.some.injEq] at hi
                  exact absurd hi (skipRecord_not_invoked u ci true st)
        · rw [if_neg hcut] at hi ⊢
          match i, j, hij with
          | 0, j + 1, _ =>
              simp only [List.getElem?_cons_zero, Option.some.injEq] at hi
              rw [hi] at hcut
              exact absurd (by simp [prereqCut, hbad]) hcut
          | i + 1, j + 1, hij =>
              simp only [List.getElem?_cons_succ] at hi ⊢
              exact ih _ _ i j (Nat.lt_of_succ_lt_succ hij) (by simpa using hj) hi

theorem prerequisite_short_circuit_witness :
    ∃ t, ([Test.case 0 true .FAILED, Test.case 1 false .PASSED] : List Test)[1]? = some t
      ∧ ((runTests (fun _ => false) false 0 false
            [Test.case 0 true .FAILED, Test.case 1 false .PASSED]).2.2)[1]?
          = some (skipRecord t)
      ∧ allSkippedUnrun (skipRecord t) = true :=
  prerequisite_short_circuit (fun _ => false) false 0 false
    [Test.case 0 true .FAILED, Test.case 1 false .PASSED] 0 1
    (by decide) (by decide) 0 .FAILED (by rfl) (by rfl)

/-! ### Cooperative abort (claim C3) -/

/-- A flat, non-prerequisite test case: the situation of the abort claim,
where the suite/queue holds plain cases and nothing else ends the loop
early. -/
def isPlainCase : Test → Bool
  | .case _ p _ => !p
  | .suite _ _ => false

/-- The record of a case that ran to completion (its body was invoked and its
final status recorded).  The suite branch is never reached under the
`isPlainCase` hypothesis and is kept total with the untouched record. -/
def caseRunRecord : Test → RTest
  | .case i p b => .case i p b true
  | .suite i ts => .suite i (initRecords ts)

theorem runTests_break (ext : Nat → Bool) (ff : Bool) (n : Nat) (ab : Bool) (ts : List Test)
    (h : (ab || ext n) = true) :
    (runTests ext ff n ab ts).2.2 = ts.map initRecord := by
  cases ts with
  | nil => simp [runTests]
  | cons t ts => simp [runTests, h, initRecords_eq_map]

theorem runTests_abort_split (ext : Nat → Bool) (ts : List Test) :
    ∀ n m : Nat, (∀ t ∈ ts, isPlainCase t = true) →
    (∀ q, q ≤ m → ext (n + q) = false) →
    ext (n + m + 1) = true →
    (runTests ext false n false ts).2.2
      = (ts.take (m + 1)).map caseRunRecord ++ (ts.drop (m + 1)).map initRecord := by
  induction ts with
  | nil => intro n m _ _ _; simp [runTests]
  | cons t ts ih =>
      intro n m hplain hfalse htrue
      have hn : ext n = false := by
        have h0 := hfalse 0 (Nat.zero_le m)
        simpa using h0
      obtain ⟨i, b, ht⟩ : ∃ i b, t = Test.case i false b := by
        have := hplain t (List.mem_cons_self ..)
        match t with
        | .case i p b =>
            cases p with
            | false => exact ⟨i, b, rfl⟩
            | true => simp [isPlainCase] at this
        | .suite i ts' => simp [isPlainCase] at this
      subst ht
      have hstep : (runTests ext false n false (Test.case i false b :: ts)).2.2
          = RTest.case i false b true :: (runTests ext false (n + 1) false ts).2.2 := by
        rw [runTests, if_neg (by simp [hn])]
        simp [runTest, prereqCut]
      rw [hstep]
      cases m with
      | zero =>
          have hb : ext (n + 1) = true := by simpa using htrue
          rw [runTests_break ext false (n + 1) false ts (by simp [hb])]
          simp [caseRunRecord]
      | succ m =>
          have hrec := ih (n + 1) m (fun u hu => hplain u (List.mem_cons_of_mem _ hu))
            (fun q hq => by
              have h2 := hfalse (q + 1) (by omega)
              rw [show n + (q + 1) = n + 1 + q from by omega] at h2
              exact h2)
            (by rw [show n + 1 + m + 1 = n + (m + 1) + 1 from by omega]; exact htrue)
          rw [hrec]
          simp [caseRunRecord]

theorem consumeItems_abort_split (ext : Nat → Bool) (ts : List Test) :
    ∀ n m : Nat, (∀ t ∈ ts, isPlainCase t = true) →
    (∀ q, q < m → ext (n + q) = false) →
    ext (n + m) = true →
    (consumeItems ext false n false ts).2.2 = (ts.take (m + 1)).map caseRunRecord := by
  induction ts with
  | nil => intro n m _ _ _; simp [consumeItems]
  | cons t ts ih =>
      intro n m hplain hfalse htrue
      obtain ⟨i, b, ht⟩ : ∃ i b, t = Test.case i false b := by
        have := hplain t (List.mem_cons_self ..)
        match t with
        | .case i p b =>
            cases p with
            | false => exact ⟨i, b, rfl⟩
            | true => simp [isPlainCase] at this
        | .suite i ts' => simp [isPlainCase] at this
      subst ht
      rw [consumeItems]
      rw [show runTest ext false n false (Test.case i false b)
            = (n, false, RTest.case i false b true) from by simp [runTest]]
      cases m with
      | zero =>
          have hb : ext n = true := by simpa using htrue
          simp [hb, caseRunRecord]
      | succ m =>
          have hn : ext n = false := by simpa using hfalse 0 (Nat.succ_pos m)
          rw [if_neg (by simp [hn])]
          have hrec := ih (n + 1) m (fun u hu => hplain u (List.mem_cons_of_mem _ hu))
            (fun q hq => by
              have h2 := hfalse (q + 1) (by omega)
              rw [show n + (q + 1) = n + 1 + q from by omega] at h2
              exact h2)
            (by rw [show n + 1 + m = n + (m + 1) from by omega]; exact htrue)
          simp [hrec, caseRunRecord]

/-- **C3** (cooperative abort, `suite.py` lines 263-271 and `consumer.py`
lines 63-85): the shared abort flag is modelled as the monotone oracle `ext`
over observation instants; the sequential suite loop observes it just before
item `q` at instant `q`, the queue consumer observes it just after item `q`
at instant `q + 1`.  If the flag becomes set while case `k` executes (false
at instant `k`, true at instant `k + 1`) then, in both loops, cases
`0..k` run to completion (bodies invoked, statuses recorded) and no case
after `k` is ever started: the suite loop leaves them with their untouched
`NOT_RUN` records, and the consumer loop stops dequeuing (exactly `k + 1`
records are produced). -/
theorem abort_is_cooperative
    (ext : Nat → Bool) (ts : List Test) (k : Nat)
    (hplain : ∀ t ∈ ts, isPlainCase t = true)
    (hmono : ∀ a b : Nat, a ≤ b → ext a = true → ext b = true)
    (_hk : k < ts.length)
    (hfalse : ext k = false) (htrue : ext (k + 1) = true) :
    (runTests ext false 0 false ts).2.2
        = (ts.take (k + 1)).map caseRunRecord ++ (ts.drop (k + 1)).map initRecord
    ∧ (consumeItems ext false 1 false ts).2.2 = (ts.take (k + 1)).map caseRunRecord := by
  have hbelow : ∀ q, q ≤ k → ext q = false := by
    intro q hq
    cases hq2 : ext q with
    | false => rfl
    | true => exact absurd (hmono q k hq hq2) (by simp [hfalse])
  constructor
  · apply runTests_abort_split ext ts 0 k hplain
    · intro q hq
      rw [Nat.zero_add]
      exact hbelow q hq
    · simpa using htrue
  · apply consumeItems_abort_split ext ts 1 k hplain
    · intro q hq
      rw [show 1 + q = q + 1 from by omega]
      exact hbelow (q + 1) (by omega)
    · rw [show 1 + k = k + 1 from by omega]
      exact htrue

theorem abort_is_cooperative_witness :
    (runTests (fun q => decide (2 ≤ q)) false 0 false
        [Test.case 0 false .PASSED, Test.case 1 false .FAILED, Test.case 2 false .PASSED]).2.2
      = [RTest.case 0 false .PASSED true, RTest.case 1 false .FAILED true,
         RTest.case 2 false .NOT_RUN false]
    ∧ (consumeItems (fun q => decide (2 ≤ q)) false 1 false
        [Test.case 0 false .PASSED, Test.case 1 false .FAILED, Test.case 2 false .PASSED]).2.2
      = [RTest.case 0 false .PASSED true, RTest.case 1 false .FAILED true] := by
  have h := abort_is_cooperative (fun q => decide (2 ≤ q))
    [Test.case 0 false .PASSED, Test.case 1 false .FAILED, Test.case 2 false .PASSED] 1
    (by decide)
    (by intro a b hab ha; simp only [decide_eq_true_eq] at ha ⊢; omega)
    (by decide) (by decide) (by decide)
  simpa using h

/-!
## Class/module setup-error caching (claim C4)

`TestSuite.run_test` (`suite.py` lines 284-311) together with
`_handle_module_setup` / `_handle_module_teardown` / `_handle_class_setup` /
`_handle_class_teardown` (lines 313-416).  The mutable slots are
`result.__class__.PREV_TEST_CLASS`, `result.__class__.MODULE_SETUP_ERROR`
(shared slots on the `TestResult` class) and the per-class attribute
`CLASS_SETUP_ERROR`.  Classes and modules are identified by naturals; a hook
is `none` (absent — `getattr` returns `None` / the module is not in
`sys.modules`), `some none` (present, returns normally) or `some (some e)`
(present, raises, captured by `_handle_fixture` as an `ErrorInfo`).
`@skipif` marks on classes are assumed absent; pause/abort/prerequisites are
orthogonal and verified with `runTests` above. -/

/-- Stand-in for `assertions.ErrorInfo`. -/
structure Err4 where
  tag : Nat
deriving DecidableEq, Repr

/-- A fixture invocation performed via `TestSuite._handle_fixture`. -/
inductive FixCall where
  | setupClass (cls : Nat)
  | setupModule (modl : Nat)
  | teardownClass (cls : Nat)
  | teardownModule (modl : Nat)
deriving DecidableEq, Repr

/-- The static environment: which module each test class lives in and what
its `setup_class` / `setup_module` / `teardown_class` / `teardown_module`
hooks do when invoked. -/
structure FixEnv where
  clsModule : Nat → Nat
  classSetupHook : Nat → Option (Option Err4)
  moduleSetupHook : Nat → Option (Option Err4)
  classTeardownHook : Nat → Option (Option Err4)
  moduleTeardownHook : Nat → Option (Option Err4)

/-- The mutable fixture state threaded through `run_test`:
`PREV_TEST_CLASS`, `MODULE_SETUP_ERROR`, the per-class `CLASS_SETUP_ERROR`
slots, and the chronological log of fixture invocations. -/
structure FixState where
  prevClass : Option Nat
  moduleSetupError : Option Err4
  classSetupError : Nat → Option Err4
  calls : List FixCall

/-- Initial state: no previous class, no cached errors, nothing invoked. -/
def initFixState : FixState :=
  { prevClass := none, moduleSetupError := none, classSetupError := fun _ => none, calls := [] }

/-- `TestSuite._handle_class_teardown` (`suite.py` lines 396-416).  With
`prev_class = None`, `getattr(None, TEARDOWN_CLASS_NAME, None)` is `None`, so
no hook runs regardless of the guards. -/
def handleClassTeardown (env : FixEnv) (curt : Nat) (st : FixState) : FixState :=
  match st.prevClass with
  | none => st
  | some pc =>
      if pc = curt then st
      else if (st.classSetupError pc).isSome then st
      else if st.moduleSetupError.isSome then st
      else match env.classTeardownHook pc with
        | none => st
        | some _ => { st with calls := st.calls ++ [.teardownClass pc] }

/-- `TestSuite._handle_module_teardown` (`suite.py` lines 356-371). -/
def handleModuleTeardown (env : FixEnv) (st : FixState) : FixState :=
  match st.prevClass with
  | none => st
  | some pc =>
      if st.moduleSetupError.isSome then st
      else match env.moduleTeardownHook (env.clsModule pc) with
        | none => st
        | some _ => { st with calls := st.calls ++ [.teardownModule (env.clsModule pc)] }

/-- `TestSuite._handle_module_setup` (`suite.py` lines 335-354): on a module
change, tear down the previous module, reset the shared `MODULE_SETUP_ERROR`
slot, run `setup_module` if present, and cache its error in the slot. -/
def handleModuleSetup (env : FixEnv) (cls : Nat) (st : FixState) : FixState :=
  let curt := env.clsModule cls
  if st.prevClass.map env.clsModule = some curt then st
  else
    let st := handleModuleTeardown env st
    let st := { st with moduleSetupError := none }
    match env.moduleSetupHook curt with
    | none => st
    | some r =>
        let st := { st with calls := st.calls ++ [.setupModule curt] }
        match r with
        | none => st
        | some e => { st with moduleSetupError := some e }

/-- `TestSuite._handle_class_setup` (`suite.py` lines 373-394): skipped when
the class did not change or a module setup error is cached; otherwise the
per-class `CLASS_SETUP_ERROR` slot is reset, `setup_class` is run if present,
and its error is cached in the slot. -/
def handleClassSetup (env : FixEnv) (cls : Nat) (st : FixState) : FixState :=
  if st.prevClass = some cls then st
  else if st.moduleSetupError.isSome then st
  else
    let st := { st with
      classSetupError := fun c => if c = cls then none else st.classSetupError c }
    match env.classSetupHook cls with
    | none => st
    | some r =>
        let st := { st with calls := st.calls ++ [.setupClass cls] }
        match r with
        | none => st
        | some e =>
            { st with classSetupError := fun c => if c = cls then some e else st.classSetupError c }

/-- A test case as seen by the fixture logic: its class, and the status its
body would produce if invoked. -/
structure Case4 where
  cls : Nat
  body : Status
deriving DecidableEq, Repr

/-- The observable outcome of one `run_test` call for a case. -/
structure CaseRec4 where
  status : Status
  error : Option Err4
  body_invoked : Bool
deriving DecidableEq, Repr

/-- `TestSuite.run_test` (`suite.py` lines 284-311) for a case: fixture
boundaries are handled, `PREV_TEST_CLASS` is updated, and then — if a class
or module setup error is cached — `record.error` is set to
`class_setup_error or module_setup_error` and the method returns *without*
running the test body (and without assigning `record.status`, which keeps its
construction-time default `NOT_RUN`); otherwise `test.run()` executes the
body. -/
def runTestFix (env : FixEnv) (t : Case4) (st : FixState) : FixState × CaseRec4 :=
  let st := handleClassTeardown env t.cls st
  let st := handleModuleSetup env t.cls st
  let st := handleClassSetup env t.cls st
  let st := { st with prevClass := some t.cls }
  let cerr := st.classSetupError t.cls
  let merr := st.moduleSetupError
  if cerr.isSome || merr.isSome then
    (st, { status := .NOT_RUN, error := cerr.orElse (fun _ => merr), body_invoked := false })
  else
    (st, { status := t.body, error := none, body_invoked := true })

/-- The sequence of `run_test` calls `TestSuite._run_tests` makes for a flat
list of non-prerequisite cases with the abort flag never set (the loop
control itself is verified above with `runTests`). -/
def runCasesFix (env : FixEnv) : FixState → List Case4 → FixState × List CaseRec4
  | st, [] => (st, [])
  | st, t :: ts =>
      let r := runTestFix env t st
      let r2 := runCasesFix env r.1 ts
      (r2.1, r.2 :: r2.2)

/-- One `run_test` for a case of class `c` when the error of `setup_class c`
is already cached and the class did not change: all fixture handlers return
early, the state is unchanged apart from `PREV_TEST_CLASS`, and the record
carries the cached error with the body not invoked and status left
`NOT_RUN`. -/
theorem runTestFix_cached_class (env : FixEnv) (c : Nat) (e : Err4) (b : Status) (st : FixState)
    (h1 : st.prevClass = some c) (h2 : st.moduleSetupError = none)
    (h3 : st.classSetupError c = some e) :
    (runTestFix env ⟨c, b⟩ st).2 = ⟨.NOT_RUN, some e, false⟩
    ∧ ((runTestFix env ⟨c, b⟩ st).1).calls = st.calls
    ∧ ((runTestFix env ⟨c, b⟩ st).1).prevClass = some c
    ∧ ((runTestFix env ⟨c, b⟩ st).1).moduleSetupError = none
    ∧ ((runTestFix env ⟨c, b⟩ st).1).classSetupError c = some e := by
  simp [runTestFix, handleClassTeardown, handleModuleSetup, handleClassSetup, h1, h2, h3,
        Option.orElse]

/-- The first `run_test` from a fresh state for a case of class `c` whose
`setup_class` raises `e` (and whose module setup, if any, does not raise):
the hook is invoked once, its error is cached in the per-class slot, and the
record carries the error with the body not invoked. -/
theorem runTestFix_init_class (env : FixEnv) (c : Nat) (e : Err4) (b : Status)
    (h1 : env.classSetupHook c = some (some e))
    (hm : ∀ e', env.moduleSetupHook (env.clsModule c) ≠ some (some e')) :
    (runTestFix env ⟨c, b⟩ initFixState).2 = ⟨.NOT_RUN, some e, false⟩
    ∧ ((runTestFix env ⟨c, b⟩ initFixState).1).prevClass = some c
    ∧ ((runTestFix env ⟨c, b⟩ initFixState).1).moduleSetupError = none
    ∧ ((runTestFix env ⟨c, b⟩ initFixState).1).classSetupError c = some e
    ∧ ((runTestFix env ⟨c, b⟩ initFixState).1).calls.count (.setupClass c) = 1 := by
  cases hmk : env.moduleSetupHook (env.clsModule c) with
  | none =>
      simp [runTestFix, handleClassTeardown, handleModuleSetup, handleClassSetup,
            handleModuleTeardown, initFixState, h1, hmk, Option.orElse]
  | some r =>
      cases r with
      | none =>
          simp [runTestFix, handleClassTeardown, handleModuleSetup, handleClassSetup,
                handleModuleTeardown, initFixState, h1, hmk, Option.orElse]
      | some e' => exact absurd hmk (hm e')

/-- Running any further cases of the same class after the class-setup error
was cached: every record replays the stored error without invoking a body,
and no further fixture call is made (in particular the setup hook is not
re-invoked). -/
theorem runCasesFix_cached_class (env : FixEnv) (c : Nat) (e : Err4) (cs : List Case4)
    (hcs : ∀ t ∈ cs, t.cls = c) :
    ∀ st : FixState, st.prevClass = some c → st.moduleSetupError = none →
      st.classSetupError c = some e →
      (∀ r ∈ (runCasesFix env st cs).2, r = ⟨.NOT_RUN, some e, false⟩)
      ∧ ((runCasesFix env st cs).1).calls = st.calls := by
  induction cs with
  | nil => intro st _ _ _; simp [runCasesFix]
  | cons t ts ih =>
      intro st h1 h2 h3
      obtain ⟨tc, tb⟩ := t
      have htc : tc = c := hcs ⟨tc, tb⟩ (List.mem_cons_self ..)
      subst htc
      obtain ⟨hrec, hcalls, hprev, hmod, hslot⟩ :=
        runTestFix_cached_class env tc e tb st h1 h2 h3
      have hrest := ih (fun u hu => hcs u (List.mem_cons_of_mem _ hu))
        (runTestFix env ⟨tc, tb⟩ st).1 hprev hmod hslot
      constructor
      · intro r hr
        rw [runCasesFix] at hr
        simp only [List.mem_cons] at hr
        rcases hr with hr | hr
        · rw [hr, hrec]
        · exact hrest.1 r hr
      · rw [runCasesFix]
        simpa [hcalls] using hrest.2

/-- The first `run_test` from a fresh state for a case of a module whose
`setup_module` raises `e`: the hook is invoked once, its error is cached in
the shared slot, `setup_class` is skipped because of the module error, and
the record carries the module error with the body not invoked. -/
theorem runTestFix_init_module (env : FixEnv) (c : Nat) (m : Nat) (e : Err4) (b : Status)
    (hc : env.clsModule c = m)
    (h1 : env.moduleSetupHook m = some (some e)) :
    (runTestFix env ⟨c, b⟩ initFixState).2 = ⟨.NOT_RUN, some e, false⟩
    ∧ ((runTestFix env ⟨c, b⟩ initFixState).1).prevClass = some c
    ∧ ((runTestFix env ⟨c, b⟩ initFixState).1).moduleSetupError = some e
    ∧ (∀ x, ((runTestFix env ⟨c, b⟩ initFixState).1).classSetupError x = none)
    ∧ ((runTestFix env ⟨c, b⟩ initFixState).1).calls = [.setupModule m] := by
  subst hc
  simp [runTestFix, handleClassTeardown, handleModuleSetup, handleClassSetup,
        handleModuleTeardown, initFixState, h1, Option.orElse]

/-- One `run_test` for a case whose module's setup error is already cached:
all fixture handlers return early (class teardown and class setup are guarded
by the cached module error), the record replays the stored module error, and
no hook is invoked. -/
theorem runTestFix_cached_module (env : FixEnv) (pc c m : Nat) (e : Err4) (b : Status)
    (st : FixState)
    (h1 : st.prevClass = some pc) (hpm : env.clsModule pc = m) (hcm : env.clsModule c = m)
    (h2 : st.moduleSetupError = some e) (h3 : ∀ x, st.classSetupError x = none) :
    (runTestFix env ⟨c, b⟩ st).2 = ⟨.NOT_RUN, some e, false⟩
    ∧ ((runTestFix env ⟨c, b⟩ st).1).calls = st.calls
    ∧ ((runTestFix env ⟨c, b⟩ st).1).prevClass = some c
    ∧ ((runTestFix env ⟨c, b⟩ st).1).moduleSetupError = some e
    ∧ (∀ x, ((runTestFix env ⟨c, b⟩ st).1).classSetupError x = none) := by
  by_cases hpceq : pc = c
  · subst hpceq
    simp [runTestFix, handleClassTeardown, handleModuleSetup, handleClassSetup,
          h1, h2, h3, hpm, hcm, Option.orElse]
  · simp [runTestFix, handleClassTeardown, handleModuleSetup, handleClassSetup,
          h1, h2, h3, hpm, hcm, hpceq, Option.orElse]

/-- Running any further cases of the same module after its setup error was
cached: every record replays the stored module error without invoking a
body, and no further fixture call is made. -/
theorem runCasesFix_cached_module (env : FixEnv) (m : Nat) (e : Err4) (cs : List Case4)
    (hcs : ∀ t ∈ cs, env.clsModule t.cls = m) :
    ∀ (st : FixState) (pc : Nat), st.prevClass = some pc → env.clsModule pc = m →
      st.moduleSetupError = some e → (∀ x, st.classSetupError x = none) →
      (∀ r ∈ (runCasesFix env st cs).2, r = ⟨.NOT_RUN, some e, false⟩)
      ∧ ((runCasesFix env st cs).1).calls = st.calls := by
  induction cs with
  | nil => intro st pc _ _ _ _; simp [runCasesFix]
  | cons t ts ih =>
      intro st pc h1 hpm h2 h3
      obtain ⟨tc, tb⟩ := t
      have htc : env.clsModule tc = m := hcs ⟨tc, tb⟩ (List.mem_cons_self ..)
      obtain ⟨hrec, hcalls, hprev, hmod, hslot⟩ :=
        runTestFix_cached_module env pc tc m e tb st h1 hpm htc h2 h3
      have hrest := ih (fun u hu => hcs u (List.mem_cons_of_mem _ hu))
        (runTestFix env ⟨tc, tb⟩ st).1 tc hprev htc hmod hslot
      constructor
      · intro r hr
        rw [runCasesFix] at hr
        simp only [List.mem_cons] at hr
        rcases hr with hr | hr
        · rw [hr, hrec]
        · exact hrest.1 r hr
      · rw [runCasesFix]
        simpa [hcalls] using hrest.2

/-- A concrete environment in which every case lives in module `0` whose
setup succeeds trivially (no hook) and `setup_class 0` raises error `⟨0⟩`. -/
def env4 : FixEnv :=
  { clsModule := fun _ => 0
    classSetupHook := fun c => if c = 0 then some (some ⟨0⟩) else none
    moduleSetupHook := fun _ => none
    classTeardownHook := fun _ => none
    moduleTeardownHook := fun _ => none }

/-- **C4, counterexample**: running two cases of class `0` under `env4` — the
class setup raises and its error is cached — leaves BOTH records with status
`NOT_RUN`: `run_test` (`suite.py` lines 295-303) assigns only `record.error`
and returns, never assigning `record.status`, so the cached error is *not*
replayed as the case's recorded status (it is stored only as the record's
error, with the body not invoked). -/
theorem class_setup_error_leaves_status_not_run :
    ((runCasesFix env4 initFixState [⟨0, .PASSED⟩, ⟨0, .PASSED⟩]).2.map (fun r => r.status))
      = [.NOT_RUN, .NOT_RUN]
    ∧ ((runCasesFix env4 initFixState [⟨0, .PASSED⟩, ⟨0, .PASSED⟩]).2.map (fun r => r.error))
      = [some ⟨0⟩, some ⟨0⟩]
    ∧ ((runCasesFix env4 initFixState [⟨0, .PASSED⟩, ⟨0, .PASSED⟩]).2.map
          (fun r => r.body_invoked))
      = [false, false] := by
  refine ⟨rfl, rfl, rfl⟩

/-- **C4** (amended): when a class-level or module-level setup hook raises,
the error is captured exactly once and cached (per-class slot for class
setup, shared slot for module setup); every case of that class/module gets
the cached error stored as its record's error without its body being
invoked (its status remaining `NOT_RUN`), and the raising setup hook is
invoked exactly once — never re-invoked for later cases. -/
theorem setup_error_cached_and_stored (env : FixEnv) :
    (∀ (c : Nat) (e : Err4) (cs : List Case4),
       env.classSetupHook c = some (some e) →
       (∀ e', env.moduleSetupHook (env.clsModule c) ≠ some (some e')) →
       (∀ t ∈ cs, t.cls = c) → cs ≠ [] →
       (∀ r ∈ (runCasesFix env initFixState cs).2,
          r = ⟨.NOT_RUN, some e, false⟩)
       ∧ ((runCasesFix env initFixState cs).1).calls.count (.setupClass c) = 1)
  ∧ (∀ (m : Nat) (e : Err4) (cs : List Case4),
       env.moduleSetupHook m = some (some e) →
       (∀ t ∈ cs, env.clsModule t.cls = m) → cs ≠ [] →
       (∀ r ∈ (runCasesFix env initFixState cs).2,
          r = ⟨.NOT_RUN, some e, false⟩)
       ∧ ((runCasesFix env initFixState cs).1).calls.count (.setupModule m) = 1) := by
  constructor
  · intro c e cs h1 hm hcs hne
    match cs, hne with
    | t :: ts, _ =>
        obtain ⟨tc, tb⟩ := t
        have htc : tc = c := hcs ⟨tc, tb⟩ (List.mem_cons_self ..)
        subst htc
        obtain ⟨hrec, hprev, hmod, hslot, hcount⟩ := runTestFix_init_class env tc e tb h1 hm
        have hrest := runCasesFix_cached_class env tc e ts
          (fun u hu => hcs u (List.mem_cons_of_mem _ hu))
          (runTestFix env ⟨tc, tb⟩ initFixState).1 hprev hmod hslot
        constructor
        · intro r hr
          rw [runCasesFix] at hr
          simp only [List.mem_cons] at hr
          rcases hr with hr | hr
          · rw [hr, hrec]
          · exact hrest.1 r hr
        · rw [runCasesFix]
          simp only
          rw [hrest.2]
          exact hcount
  · intro m e cs h1 hcs hne
    match cs, hne with
    | t :: ts, _ =>
        obtain ⟨tc, tb⟩ := t
        have htc : env.clsModule tc = m := hcs ⟨tc, tb⟩ (List.mem_cons_self ..)
        obtain ⟨hrec, hprev, hmod, hslot, hcalls⟩ :=
          runTestFix_init_module env tc m e tb htc h1
        have hrest := runCasesFix_cached_module env m e ts
          (fun u hu => hcs u (List.mem_cons_of_mem _ hu))
          (runTestFix env ⟨tc, tb⟩ initFixState).1 tc hprev htc hmod hslot
        constructor
        · intro r hr
          rw [runCasesFix] at hr
          simp only [List.mem_cons] at hr
          rcases hr with hr | hr
          · rw [hr, hrec]
          · exact hrest.1 r hr
        · rw [runCasesFix]
          simp only
          rw [hrest.2, hcalls]
          simp

theorem setup_error_cached_and_stored_witness :
    (∀ r ∈ (runCasesFix env4 initFixState [⟨0, .PASSED⟩, ⟨0, .PASSED⟩]).2,
       r = ⟨.NOT_RUN, some ⟨0⟩, false⟩)
    ∧ ((runCasesFix env4 initFixState [⟨0, .PASSED⟩, ⟨0, .PASSED⟩]).1).calls.count
        (.setupClass 0) = 1 :=
  (setup_error_cached_and_stored env4).1 0 ⟨0⟩ [⟨0, .PASSED⟩, ⟨0, .PASSED⟩]
    (by rfl) (by intro e' h; simp [env4] at h) (by decide) (by decide)

/-!
## Event bus notification (claim C5)

`EventObservable.notify` (`events.py` lines 353-367) and
`TestEventHandler.update` (lines 196-208).  The handler list passed to
`notify` is the snapshot `get_observers(reverse)`: the attach-time
priority-sorted `_observers` list, reversed when `reverse` is true.  A
handler is identified by `hid`; `fails` abstracts whether its `dispatch`
raises. -/

/-- A `TestEventHandler` as seen by `notify`. -/
structure Handler where
  hid : Nat
  ignore_errors : Bool
  is_async : Bool
  fails : Bool
deriving DecidableEq, Repr

/-- `TestEventHandler.update` (`events.py` lines 196-208): an async handler
submits `dispatch` to the executor pool and never raises inline; a
synchronous handler runs `dispatch`, and an exception is swallowed (only
logged) when `ignore_errors` is set, re-raised otherwise.  The result is the
exception propagating out of `update`, if any. -/
def handlerUpdate (h : Handler) : Option Nat :=
  if h.is_async then none
  else if h.fails then (if h.ignore_errors then none else some h.hid)
  else none

/-- The `for observer in self.get_observers(reverse)` loop of
`EventObservable.notify`: each handler's `update` runs inside `try/except`,
an escaping exception is appended to `errors`, and the loop continues with
the next handler.  Returns the ids of the handlers invoked, in order, and the
collected errors, in order. -/
def notifyLoop : List Handler → List Nat × List Nat
  | [] => ([], [])
  | h :: hs =>
      let r := notifyLoop hs
      (h.hid :: r.1, match handlerUpdate h with
                     | none => r.2
                     | some x => x :: r.2)

/-- `EventObservable.notify` (`events.py` lines 353-367): run the loop over
the (possibly reversed) snapshot, then raise a single aggregate
`EventNotifyError` carrying the collected errors iff some error was
collected and `ignore_notify_errors` is false.  Returns
`(invoked ids, collected errors, raised aggregate)`. -/
def notifyHandlers (ignore_notify_errors : Bool) (reverse : Bool) (hs : List Handler) :
    List Nat × List Nat × Option (List Nat) :=
  let ordered := if reverse then hs.reverse else hs
  let r := notifyLoop ordered
  (r.1, r.2, if r.2 ≠ [] ∧ ignore_notify_errors = false then some r.2 else none)

/-- **C5** (notify error policy, `events.py` lines 353-367 and 196-208): for
every `notify(event, reverse)` call, (1) every attached handler is invoked,
in order, even when earlier handlers raise; (2) the collected errors are
exactly those of the synchronous handlers whose dispatch raises and that are
not marked `ignore_errors`, in order; (3) a single aggregate
`EventNotifyError` carrying the collected errors is raised iff the
collection is non-empty and `ignore_notify_errors` is false. -/
theorem notify_invokes_all_and_aggregates
    (ign rev : Bool) (hs : List Handler) :
    (notifyHandlers ign rev hs).1 = (if rev then hs.reverse else hs).map (fun h => h.hid)
    ∧ (notifyHandlers ign rev hs).2.1
        = (if rev then hs.reverse else hs).filterMap (fun h =>
            if h.is_async = false ∧ h.fails = true ∧ h.ignore_errors = false
            then some h.hid else none)
    ∧ ((notifyHandlers ign rev hs).2.2 = some (notifyHandlers ign rev hs).2.1
        ↔ (notifyHandlers ign rev hs).2.1 ≠ [] ∧ ign = false)
    ∧ ((notifyHandlers ign rev hs).2.2 = none
        ↔ (notifyHandlers ign rev hs).2.1 = [] ∨ ign = true) := by
  have hloop : ∀ l : List Handler,
      (notifyLoop l).1 = l.map (fun h => h.hid)
      ∧ (notifyLoop l).2 = l.filterMap (fun h =>
          if h.is_async = false ∧ h.fails = true ∧ h.ignore_errors = false
          then some h.hid else none) := by
    intro l
    induction l with
    | nil => exact ⟨rfl, rfl⟩
    | cons h hs ih =>
        constructor
        · simp [notifyLoop, ih.1]
        · rw [notifyLoop]
          simp only [List.filterMap_cons]
          rw [show handlerUpdate h
                = (if h.is_async = false ∧ h.fails = true ∧ h.ignore_errors = false
                   then some h.hid else none) from by
            unfold handlerUpdate
            cases ha : h.is_async <;> cases hf : h.fails <;> cases hi : h.ignore_errors <;> simp]
          by_cases hc : h.is_async = false ∧ h.fails = true ∧ h.ignore_errors = false
          · simp [hc, ih.2]
          · simp [hc, ih.2]
  have h21 : (notifyHandlers ign rev hs).2.1
      = (notifyLoop (if rev then hs.reverse else hs)).2 := rfl
  have h22 : (notifyHandlers ign rev hs).2.2
      = (if (notifyLoop (if rev then hs.reverse else hs)).2 ≠ [] ∧ ign = false
         then some ((notifyLoop (if rev then hs.reverse else hs)).2) else none) := rfl
  have hiff : ∀ E : List Nat,
      ((if E ≠ [] ∧ ign = false then some E else none) = some E ↔ E ≠ [] ∧ ign = false)
      ∧ ((if E ≠ [] ∧ ign = false then some E else none) = none ↔ E = [] ∨ ign = true) := by
    intro E
    by_cases hc : E ≠ [] ∧ ign = false
    · constructor
      · rw [if_pos hc]
        exact ⟨fun _ => hc, fun _ => rfl⟩
      · rw [if_pos hc]
        apply iff_of_false (by simp)
        rintro (h | h)
        · exact hc.1 h
        · exact absurd hc.2 (by simp [h])
    · constructor
      · rw [if_neg hc]
        exact iff_of_false (by simp) hc
      · rw [if_neg hc]
        apply iff_of_true rfl
        by_cases he : E = []
        · exact Or.inl he
        · right
          cases hi : ign with
          | true => rfl
          | false => exact absurd ⟨he, hi⟩ hc
  refine ⟨(hloop _).1, (hloop _).2, ?_, ?_⟩
  · rw [h22, h21]
    exact (hiff _).1
  · rw [h22, h21]
    exact (hiff _).2

/-!
## Rerun merge (claim C6)

`TestResult.update` (`result.py` lines 82-108).  `tc_records()` maps
`record.id → record`, so the `ident` key of each entry equals the record's
`id` field; `update` iterates the new run's mapping, fetches the old record
with the same id (a missing id is a `KeyError`, modelled as `none`), appends
the old failure trace to the old `rerun_causes`, copies every field of the
new record onto the old one (`TestCaseResultRecord.update`), restores the
accumulated `rerun_causes`, and remarks `FAILED/ERRONEOUS → PASSED` as
`WARNING` when `mark_as_warning_if_rerun` is set. -/

/-- `assertions.ErrorInfo` as used by the merge: only the `trace` matters. -/
structure ErrInfo where
  trace : String
deriving DecidableEq, Repr

/-- A checkpoint; `checkpoint.error` is truthy iff present. -/
structure CkPoint where
  error : Option ErrInfo
deriving DecidableEq, Repr

/-- The fields of `TestCaseResultRecord` that `TestResult.update` reads or
writes. -/
structure TCRec where
  id : Nat
  status : Status
  checkpoints : List CkPoint
  rerun_causes : List String
  error : Option ErrInfo
deriving DecidableEq, Repr

/-- `for checkpoint in reversed(old_record.checkpoints): if checkpoint.error:
error = checkpoint.error; break` — the error of the last checkpoint that has
one. -/
def lastCheckpointError (cps : List CkPoint) : Option ErrInfo :=
  match cps.reverse.find? (fun cp => cp.error.isSome) with
  | some cp => cp.error
  | none => none

/-- The per-record body of the `TestResult.update` loop: merge the new-run
record `n` into the old record `o`.  Returns `none` when the source would
raise (`old_record.error.trace` with `error = None` on an `ERRONEOUS` old
record). -/
def mergeTC (mark : Bool) (o n : TCRec) : Option TCRec :=
  let causes :=
    if o.status = .FAILED then
      match lastCheckpointError o.checkpoints with
      | some e => o.rerun_causes ++ [e.trace]
      | none => o.rerun_causes
    else o.rerun_causes
  let remark : Status → Status := fun ns =>
    if (o.status = .FAILED ∨ o.status = .ERRONEOUS) ∧ ns = .PASSED ∧ mark = true
    then .WARNING else ns
  match o.status, o.error with
  | .ERRONEOUS, none => none
  | .ERRONEOUS, some e =>
      some { n with rerun_causes := causes ++ [e.trace], status := remark n.status }
  | _, _ => some { n with rerun_causes := causes, status := remark n.status }

/-- One iteration of the `TestResult.update` loop: fetch the old record with
the new record's id (`KeyError` → `none`), merge, and store the merged record
back under the same id. -/
def applyMerge (mark : Bool) (olds : List TCRec) (n : TCRec) : Option (List TCRec) :=
  match olds.find? (fun o => o.id == n.id) with
  | none => none
  | some o =>
      (mergeTC mark o n).map (fun m => olds.map (fun o' => if o'.id == n.id then m else o'))

/-- `TestResult.update` (`result.py` lines 82-108): fold every record of the
new run's `tc_records()` mapping into the old run's records. -/
def resultUpdate (mark : Bool) : List TCRec → List TCRec → Option (List TCRec)
  | olds, [] => some olds
  | olds, n :: ns =>
      match applyMerge mark olds n with
      | none => none
      | some olds' => resultUpdate mark olds' ns

/-- Find the record with a given case id (`tc_records()[i]`). -/
def findById (l : List TCRec) (i : Nat) : Option TCRec :=
  l.find? (fun r => r.id == i)

theorem findById_id (l : List TCRec) (i : Nat) (r : TCRec) (h : findById l i = some r) :
    r.id = i := by
  have := List.find?_some h
  simpa using this

theorem mergeTC_id (mark : Bool) (o n m : TCRec) (hm : mergeTC mark o n = some m) :
    m.id = n.id := by
  unfold mergeTC at hm
  rcases hst : o.status <;> rcases herr : o.error <;>
    simp only [hst, herr, Option.some.injEq] at hm <;>
    first
      | (subst hm; rfl)
      | exact Option.noConfusion hm

theorem find?_cons_true {α : Type} (p : α → Bool) (a : α) (l : List α) (h : p a = true) :
    (a :: l).find? p = some a := by
  simp [List.find?_cons, h]

theorem find?_cons_false {α : Type} (p : α → Bool) (a : α) (l : List α) (h : p a = false) :
    (a :: l).find? p = l.find? p := by
  simp [List.find?_cons, h]

theorem findById_replace (m : TCRec) (nid i : Nat)
    (hmi : m.id = nid) (hne : nid ≠ i) :
    ∀ olds : List TCRec,
      findById (olds.map (fun o' => if o'.id == nid then m else o')) i = findById olds i := by
  intro olds
  induction olds with
  | nil => rfl
  | cons o os ih =>
      simp only [List.map_cons, findById] at ih ⊢
      by_cases ho : o.id = nid
      · rw [if_pos (show (o.id == nid) = true by simpa using ho)]
        rw [find?_cons_false (fun r => r.id == i) m _ (by simp [hmi]; omega),
            find?_cons_false (fun r => r.id == i) o _ (by simp [ho]; omega)]
        exact ih
      · rw [if_neg (show ¬ (o.id == nid) = true by simpa using ho)]
        by_cases h4 : (o.id == i) = true
        · rw [find?_cons_true (fun r => r.id == i) o _ h4,
              find?_cons_true (fun r => r.id == i) o _ h4]
        · rw [find?_cons_false (fun r => r.id == i) o _ (by simpa using h4),
              find?_cons_false (fun r => r.id == i) o _ (by simpa using h4)]
          exact ih

theorem findById_replace_hit (m : TCRec) (i : Nat) (hmi : m.id = i) :
    ∀ (olds : List TCRec) (o : TCRec), findById olds i = some o →
      findById (olds.map (fun o' => if o'.id == i then m else o')) i = some m := by
  intro olds
  induction olds with
  | nil => intro o h; exact absurd h (by simp [findById])
  | cons u os ih =>
      intro o h
      simp only [List.map_cons, findById] at h ⊢
      by_cases hu : (u.id == i) = true
      · rw [if_pos hu]
        rw [find?_cons_true (fun r => r.id == i) m _ (by simpa using hmi)]
      · rw [if_neg hu]
        rw [find?_cons_false (fun r => r.id == i) u _ (by simpa using hu)] at h
        rw [find?_cons_false (fun r => r.id == i) u _ (by simpa using hu)]
        exact ih o h

theorem applyMerge_preserves (mark : Bool) (olds olds' : List TCRec) (n : TCRec) (i : Nat)
    (h : applyMerge mark olds n = some olds') (hne : n.id ≠ i) :
    findById olds' i = findById olds i := by
  unfold applyMerge at h
  cases hf : olds.find? (fun o => o.id == n.id) with
  | none => rw [hf] at h; exact Option.noConfusion h
  | some o =>
      rw [hf] at h
      replace h : (mergeTC mark o n).map
          (fun m => olds.map (fun o' => if o'.id == n.id then m else o')) = some olds' := h
      cases hm : mergeTC mark o n with
      | none => rw [hm] at h; exact Option.noConfusion h
      | some m =>
          rw [hm] at h
          simp only [Option.map_some', Option.some.injEq] at h
          subst h
          exact findById_replace m n.id i (mergeTC_id mark o n m hm) hne olds

theorem resultUpdate_preserves (mark : Bool) (i : Nat) :
    ∀ (ns olds res : List TCRec), resultUpdate mark olds ns = some res →
      (∀ n ∈ ns, n.id ≠ i) → findById res i = findById olds i := by
  intro ns
  induction ns with
  | nil =>
      intro olds res h _
      rw [resultUpdate] at h
      simp only [Option.some.injEq] at h
      rw [h]
  | cons n ns ih =>
      intro olds res h hni
      rw [resultUpdate] at h
      cases ha : applyMerge mark olds n with
      | none => rw [ha] at h; exact Option.noConfusion h
      | some olds' =>
          rw [ha] at h
          replace h : resultUpdate mark olds' ns = some res := h
          have h1 := applyMerge_preserves mark olds olds' n i ha (hni n (List.mem_cons_self ..))
          rw [ih olds' res h (fun u hu => hni u (List.mem_cons_of_mem _ hu)), h1]

theorem mergeTC_failed_passed (o n : TCRec) (e : ErrInfo)
    (host : o.status = .FAILED) (hnst : n.status = .PASSED)
    (hck : lastCheckpointError o.checkpoints = some e) :
    mergeTC true o n
      = some { n with
                status := .WARNING,
                rerun_causes := o.rerun_causes ++ [e.trace] } := by
  unfold mergeTC
  rcases herr : o.error <;> simp [host, hnst, hck, herr]

theorem resultUpdate_merged_at (n o : TCRec) (e : ErrInfo) (res : List TCRec)
    (host : o.status = .FAILED) (hnst : n.status = .PASSED)
    (hck : lastCheckpointError o.checkpoints = some e) :
    ∀ (ns olds : List TCRec),
      (ns.map (fun r => r.id)).Nodup → n ∈ ns →
      findById olds n.id = some o →
      resultUpdate true olds ns = some res →
      findById res n.id
        = some { n with
                  status := .WARNING,
                  rerun_causes := o.rerun_causes ++ [e.trace] } := by
  intro ns
  induction ns with
  | nil => intro olds _ hn _ _; exact absurd hn (by simp)
  | cons n' ns ih =>
      intro olds hnews hn holds hres
      rw [resultUpdate] at hres
      cases ha : applyMerge true olds n' with
      | none => rw [ha] at hres; exact Option.noConfusion hres
      | some olds' =>
          rw [ha] at hres
          replace hres : resultUpdate true olds' ns = some res := hres
          simp only [List.map_cons, List.nodup_cons] at hnews
          by_cases hid : n'.id = n.id
          · have hnn : n = n' := by
              rcases List.mem_cons.mp hn with h | h
              · exact h
              · exact absurd (by rw [hid]; exact List.mem_map_of_mem _ h) hnews.1
            subst hnn
            unfold applyMerge at ha
            replace holds2 : olds.find? (fun o' => o'.id == n.id) = some o := holds
            rw [holds2] at ha
            replace ha : (mergeTC true o n).map
                (fun m => olds.map (fun o' => if o'.id == n.id then m else o')) = some olds' := ha
            rw [mergeTC_failed_passed o n e host hnst hck] at ha
            simp only [Option.map_some', Option.some.injEq] at ha
            subst ha
            have hne : ∀ u ∈ ns, u.id ≠ n.id := by
              intro u hu he
              exact hnews.1 (he ▸ List.mem_map_of_mem _ hu)
            have hhit := findById_replace_hit
              { n with status := .WARNING, rerun_causes := o.rerun_causes ++ [e.trace] }
              n.id rfl olds o holds
            have hp := resultUpdate_preserves true n.id ns _ res hres hne
            rw [hp]
            exact hhit
          · have hn2 : n ∈ ns := by
              rcases List.mem_cons.mp hn with h | h
              · exact absurd (show n'.id = n.id by rw [h]) hid
              · exact h
            have holds' : findById olds' n.id = some o := by
              rw [applyMerge_preserves true olds olds' n' n.id ha hid, holds]
            exact ih olds' hnews.2 hn2 holds' hres

/-- **C6** (rerun merge preserves history, `result.py` lines 82-108): merging
a rerun via `TestResult.update` with `mark_as_warning_if_rerun` set, for a
case whose old record was `FAILED` (with a failing checkpoint carrying trace
`e.trace`) and whose new record is `PASSED`: the merged record's status is
`WARNING`, its `rerun_causes` are the previously accumulated causes with the
old failure trace (taken from the old record's last checkpoint that has an
error) appended, and the record keeps the same id as the original record —
matching is by id. -/
theorem rerun_merge_preserves_history
    (olds news res : List TCRec) (i : Nat) (o n : TCRec) (e : ErrInfo)
    (holds : findById olds i = some o)
    (hnews : (news.map (fun r => r.id)).Nodup)
    (hn : n ∈ news) (hni : n.id = i)
    (host : o.status = .FAILED)
    (hnst : n.status = .PASSED)
    (hck : lastCheckpointError o.checkpoints = some e)
    (hres : resultUpdate true olds news = some res) :
    findById res i
      = some { n with
                status := .WARNING,
                rerun_causes := o.rerun_causes ++ [e.trace] }
    ∧ (∀ m, findById res i = some m → m.id = o.id) := by
  subst hni
  have h1 := resultUpdate_merged_at n o e res host hnst hck news olds hnews hn holds hres
  refine ⟨h1, ?_⟩
  intro m hm
  rw [h1] at hm
  simp only [Option.some.injEq] at hm
  rw [← hm]
  exact (findById_id olds n.id o holds).symm

/-- Concrete rerun-merge inputs: one case (id 0) that failed with a checkpoint
trace `"boom"` and one previously accumulated cause, re-run to `PASSED`. -/
def olds6 : List TCRec :=
  [{ id := 0, status := .FAILED,
     checkpoints := [{ error := some { trace := "boom" } }],
     rerun_causes := ["earlier"], error := none }]

def news6 : List TCRec :=
  [{ id := 0, status := .PASSED, checkpoints := [], rerun_causes := [], error := none }]

def res6 : List TCRec :=
  [{ id := 0, status := .WARNING, checkpoints := [],
     rerun_causes := ["earlier", "boom"], error := none }]

theorem rerun_merge_preserves_history_witness :
    findById res6 0
      = some { id := 0, status := .WARNING, checkpoints := [],
               rerun_causes := ["earlier"] ++ ["boom"], error := none }
    ∧ (∀ m, findById res6 0 = some m → m.id = 0) := by
  have h := rerun_merge_preserves_history olds6 news6 res6 0
    { id := 0, status := .FAILED,
      checkpoints := [{ error := some { trace := "boom" } }],
      rerun_causes := ["earlier"], error := none }
    { id := 0, status := .PASSED, checkpoints := [], rerun_causes := [], error := none }
    { trace := "boom" }
    (by rfl) (by decide) (by decide) (by rfl) (by rfl) (by rfl) (by rfl) (by rfl)
  exact h

/-!
## Suite-record reconstruction after queue draining (claim C2)

`MultiProcessQueueTestConsumer.generate_testsuite_record` (`concurrent.py`
lines 523-541) walks a `TestSuiteModel` descriptor tree and, for each entry
of `testsuite.tests`, decides with the membership test `"tests" in test`
whether the entry is a sub-suite (recurse) or a case (substitute the drained
record, or synthesize a placeholder).  The drained mapping is built by
`add_tc_record` (line 445): `self._tc_records[tc_record.id] = tc_record`, a
plain dict assignment. -/

/-- The fields of a drained `TestCaseResultRecord` that the reconstruction
reads or writes. -/
structure CaseRec where
  id : Nat
  name : String
  path : Option String
  status : Status
deriving DecidableEq, Repr

/-- A reconstructed result record: a case record or a suite record with
ordered children (`TestSuiteResultRecord.records`). -/
inductive RRecord where
  | rcase (rec : CaseRec)
  | rsuite (id : Nat) (name : String) (records : List RRecord)

/-- Python dict assignment `d[k] = v`: overwrite the value in place when the
key exists, append the new key otherwise. -/
def dictUpsert (m : List (Nat × CaseRec)) (k : Nat) (v : CaseRec) : List (Nat × CaseRec) :=
  if m.any (fun p => p.1 == k) then m.map (fun p => if p.1 == k then (k, v) else p)
  else m ++ [(k, v)]

/-- Python dict lookup `d[k]` as an option. -/
def lookupCR (m : List (Nat × CaseRec)) (k : Nat) : Option CaseRec :=
  (m.find? (fun p => p.1 == k)).map (fun p => p.2)

/-- The drain loop (`_TestRecordQueueConsumeThread.run` feeding
`add_tc_record`): fold the dequeued case records into the id-keyed dict, in
arrival order. -/
def drainRecords (msgs : List CaseRec) : List (Nat × CaseRec) :=
  msgs.foldl (fun m r => dictUpsert m r.id r) []

/-- A `TestCaseModel` / `TestSuiteModel` descriptor as the orchestrator sees
it: a case has a required `path` and an optional `name`; a suite has a
non-optional `name` (pydantic default `"testsuite"`), an optional `path` and
ordered children `tests`. -/
inductive TModel where
  | mcase (id : Nat) (name : Option String) (path : String)
  | msuite (id : Nat) (name : String) (path : Option String) (tests : List TModel)

/-- The membership test `"tests" in test` of `concurrent.py` lines 482 and
528.  `test` is a pydantic `BaseModel` (`TestSuiteModel` or `TestCaseModel`),
which defines no `__contains__`; Python's `in` therefore falls back to
`__iter__`, which on a pydantic model yields `(field_name, value)` tuples,
and the string `"tests"` never equals such a tuple.  The test is thus
`false` for every descriptor — for sub-suites as well as cases. -/
def modelHasTestsKey (_t : TModel) : Bool := false

/-- `test.id` — defined on both descriptor shapes. -/
def descId : TModel → Nat
  | .mcase i _ _ => i
  | .msuite i _ _ _ => i

/-- `'.'.join(path.split('.')[-2:])`. -/
def lastTwoPath (p : String) : String :=
  String.intercalate "." ((p.splitOn ".").drop ((p.splitOn ".").length - 2))

/-- The placeholder branch of `generate_testsuite_record` (lines 537-540):
`TestCaseResultRecord(id=test_id)` keeps the default status `NOT_RUN`;
`name = test.name or '.'.join(test.path.split('.')[-2:])` (Python truthiness:
`None` and `""` fall through to the path derivation, which raises
`AttributeError` — modelled as `none` — when `path` is also `None`);
`path = test.path`. -/
def placeholderOf : TModel → Option CaseRec
  | .mcase i nm p =>
      some { id := i,
             name := match nm with
                     | some s => if s = "" then lastTwoPath p else s
                     | none => lastTwoPath p,
             path := some p, status := .NOT_RUN }
  | .msuite i nm p _ =>
      if nm = "" then
        match p with
        | some s => some { id := i, name := lastTwoPath s, path := p, status := .NOT_RUN }
        | none => none
      else some { id := i, name := nm, path := p, status := .NOT_RUN }

mutual
/-- `generate_testsuite_record` (`concurrent.py` lines 523-541): build a
suite record for the descriptor and process its children with the
`"tests" in test` dispatch (the recursion branch is kept as written even
though `modelHasTestsKey` shows it can never be taken).  The top-level
argument is always a suite descriptor; accessing `.tests` on a case payload
would raise (modelled as `none`). -/
def generateTestsuiteRecordCode (m : List (Nat × CaseRec)) : TModel → Option RRecord
  | .msuite i nm _ ts => (genChildrenCode m ts).map (fun rs => .rsuite i nm rs)
  | .mcase _ _ _ => none
def genChildrenCode (m : List (Nat × CaseRec)) : List TModel → Option (List RRecord)
  | [] => some []
  | t :: ts =>
      let child : Option RRecord :=
        if modelHasTestsKey t then generateTestsuiteRecordCode m t
        else
          match lookupCR m (descId t) with
          | some r => some (.rcase r)
          | none => (placeholderOf t).map .rcase
      match child, genChildrenCode m ts with
      | some c, some cs => some (c :: cs)
      | _, _ => none
end

/-- The failing input for claim C2: a batch whose descriptor tree is
suite `10` with children [case `1`, sub-suite `11` containing case `2`], and
a drain in which both cases finished and reported their records. -/
def tree2 : TModel :=
  .msuite 10 "root" none
    [.mcase 1 (some "tc1") "m.C.t1",
     .msuite 11 "sub" none [.mcase 2 (some "tc2") "m.C.t2"]]

def drained2 : List (Nat × CaseRec) :=
  drainRecords [{ id := 1, name := "tc1", path := some "m.C.t1", status := .PASSED },
                { id := 2, name := "tc2", path := some "m.C.t2", status := .FAILED }]

/-- **C2, failing-input evaluation** (`concurrent.py` lines 523-541): because
`"tests" in test` is false for a pydantic sub-suite model, the reconstructed
tree is NOT the descriptor hierarchy: the nested sub-suite `11` is emitted as
a flat placeholder *case* record (status `NOT_RUN`, carrying the sub-suite's
id and name), and the drained record of case `2` — present in the mapping —
appears nowhere in the reconstructed tree.  The claim requires a nested suite
record containing case `2`'s collected record instead. -/
theorem generate_testsuite_record_drops_nested_suite :
    generateTestsuiteRecordCode drained2 tree2
      = some (.rsuite 10 "root"
          [.rcase { id := 1, name := "tc1", path := some "m.C.t1", status := .PASSED },
           .rcase { id := 11, name := "sub", path := none, status := .NOT_RUN }]) := by
  rfl

/-!
## Fleet executor supervisory loop (claim C7)

`AmqpMultiProcessExecutor.run` (`agent/executor.py` lines 605-656): on each
polling cycle and for each bench, the exclusive-bench state is derived from
the first worker's RPC-polled busy flag, and each worker process is either
kept (alive and not self-reported stopped — its recovery counter reset to 0)
or shut down and replaced under the same name while its counter is strictly
below `runner_recover_attempts` (`recovered_runner_counts.setdefault(name, 0)
< attempts`, counter incremented per replacement). -/

/-- A worker process as the supervisory loop observes it: its name, whether
`is_alive()` holds, whether `is_stopped()` reports true, and the RPC-polled
`is_busy()` flag (`none` when it cannot be obtained). -/
structure WorkerP where
  name : Nat
  alive : Bool
  stopped : Bool
  busy : Option Bool
deriving DecidableEq, Repr

/-- `TestBench.State` as the loop assigns it. -/
inductive BState where
  | OFFLINE
  | BUSY
  | IDLE
deriving DecidableEq, Repr

/-- Exclusive-bench state (`executor.py` lines 621-632): match the first
worker's busy flag (`None → OFFLINE`, `True → BUSY`, `False → IDLE`); an
empty worker list (`IndexError`) is `OFFLINE`. -/
def benchStateOf : List WorkerP → BState
  | [] => .OFFLINE
  | w :: _ =>
      match w.busy with
      | none => .OFFLINE
      | some true => .BUSY
      | some false => .IDLE

/-- Pointwise update of the `recovered_runner_counts` dict (defaulting absent
keys to 0, as `setdefault(name, 0)` does). -/
def updCount (f : Nat → Nat) (k v : Nat) : Nat → Nat :=
  fun x => if x = k then v else f x

/-- One polling cycle over one bench's worker list (`executor.py` lines
634-656): keep an alive, not-stopped worker and reset its counter; otherwise
shut it down and start a replacement with the same name only while the
counter is below `attempts`, incrementing it.  Returns the updated counters,
the new worker list, and the number of replacements started this cycle. -/
def superviseRunners (attempts : Nat) (spawn : Nat → WorkerP) :
    (Nat → Nat) → List WorkerP → (Nat → Nat) × List WorkerP × Nat
  | counts, [] => (counts, [], 0)
  | counts, w :: ws =>
      if w.alive && !w.stopped then
        let r := superviseRunners attempts spawn (updCount counts w.name 0) ws
        (r.1, w :: r.2.1, r.2.2)
      else
        if counts w.name < attempts then
          let r := superviseRunners attempts spawn
            (updCount counts w.name (counts w.name + 1)) ws
          (r.1, spawn w.name :: r.2.1, r.2.2 + 1)
        else
          superviseRunners attempts spawn counts ws

/-- Iterate the polling cycle; the second component accumulates the total
number of replacement workers started. -/
def superviseIter (attempts : Nat) (spawn : Nat → WorkerP) :
    Nat → (Nat → Nat) × List WorkerP → ((Nat → Nat) × List WorkerP) × Nat
  | 0, st => (st, 0)
  | k + 1, st =>
      let r := superviseRunners attempts spawn st.1 st.2
      let r2 := superviseIter attempts spawn k (r.1, r.2.1)
      (r2.1, r.2.2 + r2.2)

theorem superviseIter_empty (attempts : Nat) (spawn : Nat → WorkerP) :
    ∀ (k : Nat) (c : Nat → Nat), superviseIter attempts spawn k (c, []) = ((c, []), 0) := by
  intro k
  induction k with
  | zero => intro c; rfl
  | succ k ih => intro c; simp [superviseIter, superviseRunners, ih]

/-- A permanently-crashing worker: every spawned replacement is already dead
(and not stopped) by the time the next cycle inspects it. -/
theorem superviseIter_crashloop (attempts : Nat) (spawn : Nat → WorkerP) (w : Nat)
    (hdead : ∀ nm, (spawn nm).alive = false) (hname : ∀ nm, (spawn nm).name = nm) :
    ∀ (k m : Nat) (c : Nat → Nat) (u : WorkerP),
      u.name = w → u.alive = false → c w = m →
      (superviseIter attempts spawn k (c, [u])).2 = min k (attempts - m) := by
  intro k
  induction k with
  | zero => intro m c u _ _ _; simp [superviseIter]
  | succ k ih =>
      intro m c u hun hua hcm
      rw [superviseIter]
      by_cases hlt : m < attempts
      · have hstep : superviseRunners attempts spawn c [u]
            = (updCount c w (m + 1), [spawn w], 1) := by
          rw [superviseRunners, if_neg (by simp [hua])]
          rw [hun, hcm, if_pos hlt]
          simp [superviseRunners, hcm]
        rw [hstep]
        have hrec := ih (m + 1) (updCount c w (m + 1)) (spawn w)
          (hname w) (hdead w) (by simp [updCount])
        simp only at hrec ⊢
        rw [hrec]
        omega
      · have hstep : superviseRunners attempts spawn c [u] = (c, [], 0) := by
          rw [superviseRunners, if_neg (by simp [hua])]
          rw [hun, hcm, if_neg hlt]
          rfl
        rw [hstep]
        simp only
        rw [superviseIter_empty]
        simp only
        omega

/-- **C7** (bounded recovery, `agent/executor.py` lines 605-656): (1) an
alive, not self-reported-stopped worker is kept and its recovery counter is
reset to 0; (2) a dead-or-stopped worker is replaced by a fresh process with
the same name exactly when its counter is strictly below
`runner_recover_attempts`, the counter being incremented per replacement, and
is dropped otherwise; (3) over any number of polling cycles a
permanently-crashing worker is recreated exactly `min cycles attempts` times
— in particular at most `runner_recover_attempts` times; (4) an exclusive
bench whose representative worker's busy flag cannot be obtained, or which
has no workers, is reported `OFFLINE`. -/
theorem supervisory_loop_bounded_recovery
    (attempts : Nat) (spawn : Nat → WorkerP) :
    (∀ (c : Nat → Nat) (w : WorkerP), w.alive = true → w.stopped = false →
       superviseRunners attempts spawn c [w] = (updCount c w.name 0, [w], 0))
  ∧ (∀ (c : Nat → Nat) (w : WorkerP), (w.alive = true → w.stopped = true) →
       superviseRunners attempts spawn c [w]
         = if c w.name < attempts
           then (updCount c w.name (c w.name + 1), [spawn w.name], 1)
           else (c, [], 0))
  ∧ ((∀ nm, (spawn nm).alive = false) → (∀ nm, (spawn nm).name = nm) →
       ∀ (k : Nat) (w : Nat),
         (superviseIter attempts spawn k ((fun _ => 0), [⟨w, false, false, none⟩])).2
           = min k attempts)
  ∧ (∀ rs : List WorkerP, (rs = [] ∨ ∃ u us, rs = u :: us ∧ u.busy = none) →
       benchStateOf rs = .OFFLINE) := by
  refine ⟨?_, ?_, ?_, ?_⟩
  · intro c w ha hs
    rw [superviseRunners, if_pos (by simp [ha, hs])]
    simp [superviseRunners]
  · intro c w hdead
    have hcond : (w.alive && !w.stopped) = false := by
      cases ha : w.alive with
      | false => simp [ha]
      | true => simp [ha, hdead ha]
    rw [superviseRunners, if_neg (by simp [hcond])]
    by_cases hlt : c w.name < attempts
    · rw [if_pos hlt, if_pos hlt]
      simp [superviseRunners]
    · rw [if_neg hlt, if_neg hlt]
      rfl
  · intro hdead hname k w
    have h := superviseIter_crashloop attempts spawn w hdead hname k 0
      (fun _ => 0) ⟨w, false, false, none⟩ rfl rfl rfl
    rw [h]
    omega
  · intro rs hrs
    rcases hrs with h | ⟨u, us, h, hb⟩
    · rw [h]; rfl
    · rw [h]
      simp [benchStateOf, hb]

theorem supervisory_loop_bounded_recovery_witness :
    superviseRunners 2 (fun nm => ⟨nm, false, false, none⟩) (fun _ => 0)
        [⟨5, true, false, some false⟩]
      = (updCount (fun _ => 0) 5 0, [⟨5, true, false, some false⟩], 0)
    ∧ (superviseIter 2 (fun nm => ⟨nm, false, false, none⟩) 7
        ((fun _ => 0), [⟨5, false, false, none⟩])).2 = 2
    ∧ benchStateOf [⟨5, true, false, none⟩] = .OFFLINE := by
  have h := supervisory_loop_bounded_recovery 2 (fun nm => ⟨nm, false, false, none⟩)
  refine ⟨h.1 (fun _ => 0) ⟨5, true, false, some false⟩ rfl rfl, ?_, ?_⟩
  · have h3 := h.2.2.1 (fun _ => rfl) (fun _ => rfl) 7 5
    rw [h3]
    decide
  · exact h.2.2.2 [⟨5, true, false, none⟩] (Or.inr ⟨_, _, rfl, rfl⟩)

/-!
## Program exit codes (claim C8)

`ExitCode` (`constants.py` lines 43-53) and `_run_program`
(`__main__.py` lines 162-192).  `result.statistics()` counts the statuses of
the distinct collected case records (see claim C10); `_run_program` turns
them into an exit code, mapping a `KeyboardInterrupt` to `INTERRUPTED` and
any other uncaught exception from the program loop to `UNKNOWN_EXCEPTION`. -/

namespace ExitCode

def OK : Nat := 0
def TESTS_FAILED : Nat := 1
def TESTS_ERROR : Nat := 2
def TESTS_WARNING : Nat := 3
def INTERRUPTED : Nat := 4
def UNKNOWN_EXCEPTION : Nat := 5
def USAGE_ERROR : Nat := 6
def NO_TESTS_COLLECTED : Nat := 7
def ALL_TESTS_NOT_RUN : Nat := 8
def ALL_TESTS_SKIPPED : Nat := 9

end ExitCode

/-- How one `_run_program` invocation ends: the program loop returns a result
whose distinct case records carry `statuses`, or it raises. -/
inductive ProgOutcome where
  | finished (statuses : List Status)
  | interrupted
  | exception

/-- `_run_program` (`__main__.py` lines 162-192): `totals == 0` →
`NO_TESTS_COLLECTED`; else the first positive bucket of
`failed`/`erroneous`/`warning` decides; else all-`NOT_RUN` / all-`SKIPPED`;
else `OK`.  `KeyboardInterrupt` → `INTERRUPTED`; any other uncaught
exception → `UNKNOWN_EXCEPTION`. -/
def runProgramExitCode : ProgOutcome → Nat
  | .interrupted => ExitCode.INTERRUPTED
  | .exception => ExitCode.UNKNOWN_EXCEPTION
  | .finished sts =>
      if sts.length = 0 then ExitCode.NO_TESTS_COLLECTED
      else if 0 < sts.count .FAILED then ExitCode.TESTS_FAILED
      else if 0 < sts.count .ERRONEOUS then ExitCode.TESTS_ERROR
      else if 0 < sts.count .WARNING then ExitCode.TESTS_WARNING
      else if sts.count .NOT_RUN = sts.length then ExitCode.ALL_TESTS_NOT_RUN
      else if sts.count .SKIPPED = sts.length then ExitCode.ALL_TESTS_SKIPPED
      else ExitCode.OK

/-- **C8** (exit code reflects worst outcome, `__main__.py` lines 162-192 and
`constants.py` lines 43-53): for a run that completes with at least one case
record, any `FAILED` record yields `TESTS_FAILED` (1), distinct from
`NO_TESTS_COLLECTED` (7) and `ALL_TESTS_SKIPPED` (9); otherwise any
`ERRONEOUS` yields 2, otherwise any `WARNING` yields 3; and an uncaught
exception escaping the program loop yields `UNKNOWN_EXCEPTION` (5), distinct
from every test-outcome code. -/
theorem exit_code_reflects_worst_outcome :
    (∀ sts : List Status, sts ≠ [] → Status.FAILED ∈ sts →
       runProgramExitCode (.finished sts) = ExitCode.TESTS_FAILED)
  ∧ ExitCode.TESTS_FAILED ≠ ExitCode.NO_TESTS_COLLECTED
  ∧ ExitCode.TESTS_FAILED ≠ ExitCode.ALL_TESTS_SKIPPED
  ∧ (∀ sts : List Status, sts ≠ [] → Status.FAILED ∉ sts → Status.ERRONEOUS ∈ sts →
       runProgramExitCode (.finished sts) = ExitCode.TESTS_ERROR)
  ∧ (∀ sts : List Status, sts ≠ [] → Status.FAILED ∉ sts → Status.ERRONEOUS ∉ sts →
       Status.WARNING ∈ sts →
       runProgramExitCode (.finished sts) = ExitCode.TESTS_WARNING)
  ∧ runProgramExitCode .exception = ExitCode.UNKNOWN_EXCEPTION
  ∧ ExitCode.UNKNOWN_EXCEPTION ∉ ([ExitCode.OK, ExitCode.TESTS_FAILED, ExitCode.TESTS_ERROR,
       ExitCode.TESTS_WARNING, ExitCode.NO_TESTS_COLLECTED, ExitCode.ALL_TESTS_NOT_RUN,
       ExitCode.ALL_TESTS_SKIPPED] : List Nat) := by
  refine ⟨?_, by decide, by decide, ?_, ?_, rfl, by decide⟩
  · intro sts hne hmem
    have hlen : ¬ sts.length = 0 := by simpa using hne
    have hc : 0 < sts.count Status.FAILED := List.count_pos_iff.mpr hmem
    simp [runProgramExitCode, hlen, hc]
  · intro sts hne hnf hmem
    have hlen : ¬ sts.length = 0 := by simpa using hne
    have hcf : sts.count Status.FAILED = 0 := List.count_eq_zero.mpr hnf
    have hc : 0 < sts.count Status.ERRONEOUS := List.count_pos_iff.mpr hmem
    simp [runProgramExitCode, hlen, hcf, hc]
  · intro sts hne hnf hnerr hmem
    have hlen : ¬ sts.length = 0 := by simpa using hne
    have hcf : sts.count Status.FAILED = 0 := List.count_eq_zero.mpr hnf
    have hce : sts.count Status.ERRONEOUS = 0 := List.count_eq_zero.mpr hnerr
    have hc : 0 < sts.count Status.WARNING := List.count_pos_iff.mpr hmem
    simp [runProgramExitCode, hlen, hcf, hce, hc]

theorem exit_code_reflects_worst_outcome_witness :
    runProgramExitCode (.finished [.PASSED, .FAILED, .SKIPPED]) = ExitCode.TESTS_FAILED
    ∧ runProgramExitCode (.finished [.ERRONEOUS, .PASSED]) = ExitCode.TESTS_ERROR
    ∧ runProgramExitCode (.finished [.WARNING]) = ExitCode.TESTS_WARNING
    ∧ runProgramExitCode .exception = ExitCode.UNKNOWN_EXCEPTION := by
  have h := exit_code_reflects_worst_outcome
  exact ⟨h.1 _ (by decide) (by decide),
         h.2.2.2.1 _ (by decide) (by decide) (by decide),
         h.2.2.2.2.1 _ (by decide) (by decide) (by decide) (by decide),
         h.2.2.2.2.2.1⟩

/-!
## Thread-local context registry (claim C9)

`TestContextManager.current_context` (`context.py` lines 65-81): the
class-level dict `_contexts` maps thread idents to `TestContext` objects; a
`KeyError` is caught, a fresh default `TestContext()` is constructed,
registered under the ident, and returned.  The lock only serializes access;
a single thread's view is the sequential one modelled here. -/

/-- The `TestContext` fields relevant to the registry (a fresh default
context has `enable_mock = None` and `strict = None`). -/
structure TestContextM where
  enable_mock : Option Bool
  strict : Option Bool
deriving DecidableEq, Repr

/-- `TestContext()` with constructor defaults. -/
def defaultContext : TestContextM := { enable_mock := none, strict := none }

/-- Lookup in the `_contexts` dict. -/
def ctxLookup (regs : List (Nat × TestContextM)) (ident : Nat) : Option TestContextM :=
  (regs.find? (fun p => p.1 == ident)).map (fun p => p.2)

/-- `current_context` (`context.py` lines 65-81): return the registered
context for the calling thread's ident; on `KeyError`, construct a default
`TestContext`, register it (`cls._contexts[ident] = context` — the ident is
absent, so the dict gains a new entry) and return it.  Total: no branch
raises. -/
def currentContext (regs : List (Nat × TestContextM)) (ident : Nat) :
    TestContextM × List (Nat × TestContextM) :=
  match ctxLookup regs ident with
  | some c => (c, regs)
  | none => (defaultContext, regs ++ [(ident, defaultContext)])

theorem ctxLookup_append_self (regs : List (Nat × TestContextM)) (ident : Nat)
    (c : TestContextM) (h : ctxLookup regs ident = none) :
    ctxLookup (regs ++ [(ident, c)]) ident = some c := by
  unfold ctxLookup at h ⊢
  rw [List.find?_append]
  cases hf : regs.find? (fun p => p.1 == ident) with
  | none => simp [Option.orElse]
  | some p => rw [hf] at h; exact absurd h (by simp)

/-- **C9** (`current_context` is total and idempotent, `context.py` lines
65-81): the function never raises (it is total by construction); when no
context is registered for the calling thread's ident it returns the fresh
default context and registers it under that ident, and a later call from the
same thread returns exactly the same context and leaves the registry
unchanged. -/
theorem current_context_registers_default
    (regs : List (Nat × TestContextM)) (ident : Nat) :
    currentContext (currentContext regs ident).2 ident
      = ((currentContext regs ident).1, (currentContext regs ident).2)
    ∧ (ctxLookup regs ident = none →
        (currentContext regs ident).1 = defaultContext
        ∧ ctxLookup (currentContext regs ident).2 ident = some defaultContext) := by
  constructor
  · cases hf : ctxLookup regs ident with
    | some c => simp [currentContext, hf]
    | none =>
        have h2 := ctxLookup_append_self regs ident defaultContext hf
        simp [currentContext, hf, h2]
  · intro hf
    have h2 := ctxLookup_append_self regs ident defaultContext hf
    simp [currentContext, hf, h2]

theorem current_context_registers_default_witness :
    currentContext (currentContext [] 42).2 42 = ((currentContext [] 42).1, (currentContext [] 42).2)
    ∧ (currentContext [] 42).1 = defaultContext
    ∧ ctxLookup (currentContext [] 42).2 42 = some defaultContext := by
  have h := current_context_registers_default [] 42
  exact ⟨h.1, h.2 (by rfl)⟩

/-!
## Statistics deduplicate by case id (claim C10)

`TestResult.tc_records` (`result.py` lines 65-80) flattens the suite-record
trees into the dict `tc_records[record.id] = record` by a depth-first walk
(`recur`), and `TestResult.statistics` (lines 42-54) counts the dict's
values per status plus a running `totals`. -/

mutual
/-- The case records of one record tree, in the traversal order of `recur`. -/
def dfsCases : RRecord → List CaseRec
  | .rcase r => [r]
  | .rsuite _ _ rs => dfsCasesList rs
def dfsCasesList : List RRecord → List CaseRec
  | [] => []
  | r :: rs => dfsCases r ++ dfsCasesList rs
end

mutual
/-- `recur` (`result.py` lines 68-75) threading the dict: a case record is
assigned into the dict under its id, a suite record recurses over its
children in order (the record union has no third shape, so the
`NotImplementedError` branch is unreachable). -/
def recurTC : List (Nat × CaseRec) → RRecord → List (Nat × CaseRec)
  | m, .rcase r => dictUpsert m r.id r
  | m, .rsuite _ _ rs => recurTCList m rs
def recurTCList : List (Nat × CaseRec) → List RRecord → List (Nat × CaseRec)
  | m, [] => m
  | m, r :: rs => recurTCList (recurTC m r) rs
end

/-- `TestResult.tc_records` (`result.py` lines 65-80): walk every top-level
suite record into one id-keyed dict. -/
def tcRecords (trees : List RRecord) : List (Nat × CaseRec) := recurTCList [] trees

/-- `TestResult.statistics` (`result.py` lines 42-54): the bucket of status
`s` counts the records of that status among the dict's values. -/
def statisticsCount (trees : List RRecord) (s : Status) : Nat :=
  ((tcRecords trees).map (fun p => p.2.status)).count s

/-- `statistics.totals`: one increment per value of the dict. -/
def statisticsTotals (trees : List RRecord) : Nat := (tcRecords trees).length

/-- The keys of the dict. -/
def keysOf (m : List (Nat × CaseRec)) : List Nat := m.map Prod.fst

/-- Folding a flat record list into the dict (the analysis form of the
depth-first walk; `recurTC_eq_fold` ties it to `recurTC`). -/
def upsertFold (m : List (Nat × CaseRec)) (l : List CaseRec) : List (Nat × CaseRec) :=
  l.foldl (fun acc r => dictUpsert acc r.id r) m

/-- The sum of the per-status buckets over all eight statuses. -/
def statusTotals (f : Status → Nat) : Nat :=
  f .NOT_RUN + f .PASSED + f .WARNING + f .FAILED + f .SKIPPED + f .ERRONEOUS +
  f .REJECTED + f .CANCELED

mutual
theorem recurTC_eq_fold : ∀ (t : RRecord) (m : List (Nat × CaseRec)),
    recurTC m t = upsertFold m (dfsCases t)
  | .rcase _, _ => rfl
  | .rsuite _ _ rs, m => recurTCList_eq_fold rs m
theorem recurTCList_eq_fold : ∀ (rs : List RRecord) (m : List (Nat × CaseRec)),
    recurTCList m rs = upsertFold m (dfsCasesList rs)
  | [], m => rfl
  | r :: rs, m => by
      rw [recurTCList, recurTC_eq_fold r m, recurTCList_eq_fold rs (upsertFold m (dfsCases r))]
      rw [dfsCasesList]
      unfold upsertFold
      rw [List.foldl_append]
end

theorem anyKey_iff (m : List (Nat × CaseRec)) (k : Nat) :
    m.any (fun p => p.1 == k) = true ↔ k ∈ keysOf m := by
  simp [keysOf, List.any_eq_true, List.mem_map]

theorem keysOf_upsert (m : List (Nat × CaseRec)) (k : Nat) (v : CaseRec) :
    keysOf (dictUpsert m k v) = if k ∈ keysOf m then keysOf m else keysOf m ++ [k] := by
  unfold dictUpsert
  by_cases hk : k ∈ keysOf m
  · rw [if_pos ((anyKey_iff m k).mpr hk), if_pos hk]
    unfold keysOf
    rw [List.map_map]
    apply List.map_congr_left
    intro p _
    by_cases hp : (p.1 == k) = true
    · have hpk : p.1 = k := by simpa using hp
      simp [hp, hpk]
    · have hpk : ¬ p.1 = k := by simpa using hp
      simp [hpk]
  · rw [if_neg (fun hc => hk ((anyKey_iff m k).mp hc)), if_neg hk]
    unfold keysOf
    simp

theorem keysOf_upsert_nodup (m : List (Nat × CaseRec)) (k : Nat) (v : CaseRec)
    (h : (keysOf m).Nodup) : (keysOf (dictUpsert m k v)).Nodup := by
  rw [keysOf_upsert]
  by_cases hk : k ∈ keysOf m
  · simpa [hk] using h
  · simp [List.nodup_append, h, hk]

theorem keysOf_upsert_mem (m : List (Nat × CaseRec)) (k : Nat) (v : CaseRec) (i : Nat) :
    i ∈ keysOf (dictUpsert m k v) ↔ i ∈ keysOf m ∨ i = k := by
  rw [keysOf_upsert]
  by_cases hk : k ∈ keysOf m
  · rw [if_pos hk]
    exact ⟨Or.inl, fun h => h.elim id (fun h2 => h2 ▸ hk)⟩
  · rw [if_neg hk]
    simp

theorem length_eq_keysOf_length (m : List (Nat × CaseRec)) :
    m.length = (keysOf m).length := by
  simp [keysOf]

theorem upsertFold_keys (l : List CaseRec) :
    ∀ m : List (Nat × CaseRec),
      (∀ i, i ∈ keysOf (upsertFold m l) ↔ i ∈ keysOf m ∨ i ∈ l.map (fun r => r.id))
      ∧ ((keysOf m).Nodup → (keysOf (upsertFold m l)).Nodup) := by
  induction l with
  | nil => intro m; simp [upsertFold]
  | cons r l ih =>
      intro m
      have hstep : upsertFold m (r :: l) = upsertFold (dictUpsert m r.id r) l := rfl
      rw [hstep]
      constructor
      · intro i
        rw [(ih (dictUpsert m r.id r)).1 i, keysOf_upsert_mem]
        simp only [List.map_cons, List.mem_cons]
        tauto
      · intro hnd
        exact (ih (dictUpsert m r.id r)).2 (keysOf_upsert_nodup m r.id r hnd)

theorem lookupCR_replace_ne (k : Nat) (v : CaseRec) (i : Nat) (hik : i ≠ k) :
    ∀ m : List (Nat × CaseRec),
      lookupCR (m.map (fun p => if p.1 == k then (k, v) else p)) i = lookupCR m i := by
  intro m
  induction m with
  | nil => rfl
  | cons p ps ih =>
      simp only [List.map_cons, lookupCR] at ih ⊢
      by_cases hp : (p.1 == k) = true
      · have hpk : p.1 = k := by simpa using hp
        rw [if_pos hp]
        rw [find?_cons_false (fun q => q.1 == i) (k, v) _ (by simp; omega),
            find?_cons_false (fun q => q.1 == i) p _ (by simp [hpk]; omega)]
        exact ih
      · rw [if_neg hp]
        by_cases h2 : (p.1 == i) = true
        · rw [find?_cons_true (fun q => q.1 == i) p _ h2,
              find?_cons_true (fun q => q.1 == i) p _ h2]
        · rw [find?_cons_false (fun q => q.1 == i) p _ (by simpa using h2),
              find?_cons_false (fun q => q.1 == i) p _ (by simpa using h2)]
          exact ih

theorem lookupCR_replace_self (k : Nat) (v : CaseRec) :
    ∀ m : List (Nat × CaseRec), m.any (fun p => p.1 == k) = true →
      lookupCR (m.map (fun p => if p.1 == k then (k, v) else p)) k = some v := by
  intro m
  induction m with
  | nil => intro h; exact absurd h (by simp)
  | cons p ps ih =>
      intro h
      simp only [List.map_cons, lookupCR]
      by_cases hp : (p.1 == k) = true
      · rw [if_pos hp]
        rw [find?_cons_true (fun q => q.1 == k) (k, v) _ (by simp)]
        rfl
      · rw [if_neg hp]
        rw [find?_cons_false (fun q => q.1 == k) p _ (by simpa using hp)]
        have hp' : (p.1 == k) = false := by simpa using hp
        have h2 : ps.any (fun p => p.1 == k) = true := by
          simp only [List.any_cons, hp', Bool.false_or] at h
          exact h
        simpa [lookupCR] using ih h2

theorem lookupCR_upsert (m : List (Nat × CaseRec)) (k : Nat) (v : CaseRec) (i : Nat) :
    lookupCR (dictUpsert m k v) i = if i = k then some v else lookupCR m i := by
  unfold dictUpsert
  by_cases ha : m.any (fun p => p.1 == k) = true
  · rw [if_pos ha]
    by_cases hik : i = k
    · subst hik
      rw [if_pos rfl]
      exact lookupCR_replace_self i v m ha
    · rw [if_neg hik]
      exact lookupCR_replace_ne k v i hik m
  · rw [if_neg ha]
    unfold lookupCR
    rw [List.find?_append]
    by_cases hik : i = k
    · subst hik
      have hnone : m.find? (fun p => p.1 == i) = none := by
        cases hf : m.find? (fun p => p.1 == i) with
        | none => rfl
        | some p =>
            exact absurd (List.any_eq_true.mpr
              ⟨p, List.mem_of_find?_eq_some hf, List.find?_some hf⟩) ha
      rw [hnone, if_pos rfl]
      simp
    · rw [if_neg hik]
      have h1 : (([(k, v)] : List (Nat × CaseRec)).find? (fun p => p.1 == i)) = none := by
        simp
        omega
      rw [h1]
      cases hf : m.find? (fun p => p.1 == i) <;> simp [lookupCR, hf]

theorem lookupCR_upsertFold (i : Nat) :
    ∀ (l : List CaseRec) (m : List (Nat × CaseRec)),
      lookupCR (upsertFold m l) i
        = match l.reverse.find? (fun r => r.id == i) with
          | some r => some r
          | none => lookupCR m i := by
  intro l
  induction l with
  | nil => intro m; rfl
  | cons r l ih =>
      intro m
      have hstep : upsertFold m (r :: l) = upsertFold (dictUpsert m r.id r) l := rfl
      rw [hstep, ih (dictUpsert m r.id r)]
      rw [show (r :: l).reverse = l.reverse ++ [r] from by simp]
      rw [List.find?_append]
      cases hf : l.reverse.find? (fun u => u.id == i) with
      | some u => simp [hf]
      | none =>
          simp only [hf]
          rw [lookupCR_upsert]
          by_cases hir : i = r.id
          · simp [hir]
          · simp [hir, show (r.id == i) = false from by simp; omega]

theorem upsertFold_length (l : List CaseRec) :
    (upsertFold [] l).length = ((l.map (fun r => r.id)).dedup).length := by
  have hkeys := upsertFold_keys l []
  have hnd : (keysOf (upsertFold [] l)).Nodup := hkeys.2 (by simp [keysOf])
  rw [length_eq_keysOf_length]
  have hset : (keysOf (upsertFold [] l)).toFinset = (l.map (fun r => r.id)).toFinset := by
    ext a
    simp only [List.mem_toFinset]
    rw [hkeys.1 a]
    simp [keysOf]
  calc (keysOf (upsertFold [] l)).length
      = (keysOf (upsertFold [] l)).toFinset.card := (List.toFinset_card_of_nodup hnd).symm
    _ = ((l.map (fun r => r.id))).toFinset.card := by rw [hset]
    _ = ((l.map (fun r => r.id)).dedup).length := List.card_toFinset _

theorem statusTotals_count (l : List Status) :
    statusTotals (fun s => l.count s) = l.length := by
  induction l with
  | nil => rfl
  | cons x l ih =>
      cases x <;> simp [statusTotals, List.count_cons] at ih ⊢ <;> omega

/-- **C10** (statistics deduplicate by case id, `result.py` lines 42-54 and
65-80): flattening the record trees into the id-keyed dict gives (1) keys
without duplicates, (2) exactly the case ids occurring in the trees, (3)
`totals` equal to the number of distinct case ids, (4) for each id the value
is the LAST record with that id in traversal order, and (5) the per-status
counts sum to `totals`. -/
theorem statistics_dedup_by_id (trees : List RRecord) :
    (keysOf (tcRecords trees)).Nodup
    ∧ (∀ i, i ∈ keysOf (tcRecords trees)
            ↔ i ∈ (dfsCasesList trees).map (fun r => r.id))
    ∧ statisticsTotals trees = (((dfsCasesList trees).map (fun r => r.id)).dedup).length
    ∧ (∀ i, lookupCR (tcRecords trees) i
          = (dfsCasesList trees).reverse.find? (fun r => r.id == i))
    ∧ statusTotals (fun s => statisticsCount trees s) = statisticsTotals trees := by
  have heq : tcRecords trees = upsertFold [] (dfsCasesList trees) :=
    recurTCList_eq_fold trees []
  refine ⟨?_, ?_, ?_, ?_, ?_⟩
  · rw [heq]
    exact (upsertFold_keys (dfsCasesList trees) []).2 (by simp [keysOf])
  · intro i
    rw [heq, (upsertFold_keys (dfsCasesList trees) []).1 i]
    simp [keysOf]
  · rw [statisticsTotals, heq]
    exact upsertFold_length (dfsCasesList trees)
  · intro i
    rw [heq, lookupCR_upsertFold i (dfsCasesList trees) []]
    cases hf : (dfsCasesList trees).reverse.find? (fun r => r.id == i) <;> simp [lookupCR]
  · have h := statusTotals_count ((tcRecords trees).map (fun p => p.2.status))
    rw [statisticsTotals]
    rw [show (fun s => statisticsCount trees s)
          = (fun s => ((tcRecords trees).map (fun p => p.2.status)).count s) from rfl]
    rw [h, List.length_map]
